import Mathlib

/-!
Verification of the PSD layer-export pipeline: a shallow embedding of
`src/services/psdProcessor.ts` (surface materializer `imageDataToCanvas`,
trim engine `trimCanvas`) and of the export orchestrator in `src/App.tsx`
(`transformName`, `countSelected`, `processLevel`, `exportAssets`),
together with proofs of the spec's testable properties.

Modelling conventions:
- A canvas (`Surface`) is a width/height pair with an RGBA byte store
  `data : Nat → Nat`, indexed as in the source: byte `c` of pixel `(x, y)`
  lives at `(y * width + x) * 4 + c`, the alpha byte at channel 3.
- Canvas allocation and mutation (`document.createElement`, `putImageData`,
  `drawImage`) are explicit: a `Heap` maps canvas references (naturals) to
  surfaces; allocation appends at `Heap.next`.
- Host primitives that can fail at runtime (a `getContext` call returning
  null, `drawImage`/`ImageData` throwing, `toBlob` yielding null) are
  modelled by boolean flags in `Env`; the success/failure branching of the
  source's `if (!ctx)` guards and `try`/`catch` blocks is reproduced
  faithfully.
-/

/-- RGBA pixel surface: the embedding of an `HTMLCanvasElement`'s pixel
contents (`ImageData`), with `data i` the `i`-th byte of the row-major
RGBA buffer. -/
structure Surface where
  width : Nat
  height : Nat
  data : Nat → Nat

/-- Alpha byte of pixel `(x, y)` of a surface, as read by the trim scan:
`data[(y * width + x) * 4 + 3]`. -/
def alphaAt (s : Surface) (x y : Nat) : Nat :=
  s.data ((y * s.width + x) * 4 + 3)

/-- Blank (all-zero) surface, the state of a freshly created canvas. -/
def blankSurface (w h : Nat) : Surface :=
  ⟨w, h, fun _ => 0⟩

/-- Store of allocated canvases: references `r < next` are live, and
`document.createElement('canvas')` allocates at `next`. -/
structure Heap where
  surf : Nat → Surface
  next : Nat

/-- Allocation of a fresh blank canvas of the given dimensions
(`document.createElement` followed by setting `width`/`height`). -/
def allocCanvas (h : Heap) (w hgt : Nat) : Heap :=
  ⟨Function.update h.surf h.next (blankSurface w hgt), h.next + 1⟩

/-- Overwrite of the surface stored at reference `r` (a `putImageData` or
`drawImage` write into that canvas). -/
def writeCanvas (h : Heap) (r : Nat) (s : Surface) : Heap :=
  ⟨Function.update h.surf r s, h.next⟩

/-- Host-environment outcome flags for the fallible browser primitives the
source guards against: `matCtxOk` and `imageDataOk` for the materializer's
`getContext` / `new ImageData` + `putImageData`; `srcCtxOk` for the trim
engine's `getContext` on the source canvas; `croppedCtxOk` for
`getContext` on the cropped canvas; `drawOk` false when `drawImage`
throws; `encodeOk` for `toBlob` producing a non-null blob. -/
structure Env where
  matCtxOk : Bool
  imageDataOk : Bool
  srcCtxOk : Bool
  croppedCtxOk : Bool
  drawOk : Bool
  encodeOk : Bool

/-- Environment in which every host primitive succeeds. -/
def envOk : Env :=
  ⟨true, true, true, true, true, true⟩

/-- Decoded raw layer record as consumed by `imageDataToCanvas`: an
optional precomputed canvas (`layer.canvas`), an optional raw RGBA byte
buffer (`layer.canvasData`, a total function standing for the
`Uint8ClampedArray`), and pixel dimensions. -/
structure RawLayer where
  canvas : Option Nat
  canvasData : Option (Nat → Nat)
  width : Nat
  height : Nat

/-- Pixel-count ceiling of the surface materializer
(`const PIXEL_LIMIT = 48_000_000` in `psdProcessor.ts`). -/
def PIXEL_LIMIT : Nat := 48000000

/-- Embedding of `imageDataToCanvas` from `src/services/psdProcessor.ts`.
Returns the heap after the call together with the resulting canvas
reference (`null` becomes `none`). The branch order follows the source:
precomputed canvas first, then the missing-data/zero-dimension guard, then
the `PIXEL_LIMIT` memory guard, and only then canvas allocation; inside
the `try` block a null context or a throwing `ImageData`/`putImageData`
(flags `matCtxOk`/`imageDataOk`) yields null after the allocation already
happened. -/
def imageDataToCanvas (env : Env) (h : Heap) (layer : RawLayer) : Heap × Option Nat :=
  match layer.canvas with
  | some r => (h, some r)
  | none =>
    match layer.canvasData with
    | none => (h, none)
    | some buf =>
      if layer.width = 0 ∨ layer.height = 0 then (h, none)
      else if layer.width * layer.height > PIXEL_LIMIT then (h, none)
      else
        let r := h.next
        let h1 := allocCanvas h layer.width layer.height
        if env.matCtxOk = false then (h1, none)
        else if env.imageDataOk = false then (h1, none)
        else (writeCanvas h1 r ⟨layer.width, layer.height, buf⟩, some r)

/-- Pixel-count ceiling above which `trimCanvas` skips scanning
(`const TRIM_LIMIT = 16_000_000` in `psdProcessor.ts`). -/
def TRIM_LIMIT : Nat := 16000000

/-- Running bounding-box state of the trim scan (`minX`, `minY`, `maxX`,
`maxY`, `hasAlpha` in the source). -/
structure ScanState where
  minX : Nat
  minY : Nat
  maxX : Nat
  maxY : Nat
  hasAlpha : Bool
deriving DecidableEq

/-- Body of the trim scan loop for one pixel `(x, y)`: if its alpha byte
is nonzero, widen the bounding box and record visible content. -/
def scanStep (data : Nat → Nat) (width : Nat) (st : ScanState) (p : Nat × Nat) : ScanState :=
  let alpha := data ((p.2 * width + p.1) * 4 + 3)
  if alpha > 0 then
    { minX := if p.1 < st.minX then p.1 else st.minX
      maxX := if p.1 > st.maxX then p.1 else st.maxX
      minY := if p.2 < st.minY then p.2 else st.minY
      maxY := if p.2 > st.maxY then p.2 else st.maxY
      hasAlpha := true }
  else st

/-- Row-major traversal order of the nested `for (y) for (x)` loops. -/
def pixelList (width height : Nat) : List (Nat × Nat) :=
  (List.range height).flatMap fun y => (List.range width).map fun x => (x, y)

/-- Full raster scan of `trimCanvas`: fold of `scanStep` over every pixel,
starting from `minX = width, minY = height, maxX = 0, maxY = 0,
hasAlpha = false`. -/
def scan (data : Nat → Nat) (width height : Nat) : ScanState :=
  (pixelList width height).foldl (scanStep data width) ⟨width, height, 0, 0, false⟩

/-- Result of the `drawImage` sub-region copy: destination pixel `(x, y)`
receives source pixel `(minX + x, minY + y)`; bytes beyond the cropped
raster stay at the blank canvas's zero. -/
def cropSurface (src : Surface) (minX minY cw ch : Nat) : Surface :=
  ⟨cw, ch, fun i =>
    if i / 4 < cw * ch then
      src.data (((minY + i / 4 / cw) * src.width + (minX + i / 4 % cw)) * 4 + i % 4)
    else 0⟩

/-- Return record of `trimCanvas`: `{ canvas, width, height }` with
`canvas` a heap reference. -/
structure TrimResult where
  canvas : Nat
  width : Nat
  height : Nat
deriving DecidableEq

/-- Input of `trimCanvas`: either an `HTMLCanvasElement` (a heap
reference) or a raw layer record to materialize first. -/
abbrev TrimInput : Type := Nat ⊕ RawLayer

/-- Body of `trimCanvas` from `src/services/psdProcessor.ts` once the
`canvas` binding holds a non-null canvas reference `r`, following the
source line by line: zero-size
guard; `TRIM_LIMIT` size bypass returning the untrimmed canvas; null
source context gives null; full scan; no visible content gives null;
bounding box equal to the full extent returns the original canvas; else a
fresh cropped canvas is allocated and, when its context is available and
`drawImage` does not throw, filled with the sub-region copy (a throwing
`drawImage` lands in the `catch`, which returns the original canvas at its
full dimensions; a null cropped context skips the draw and the blank
cropped canvas is returned). -/
def trimFromCanvas (env : Env) (h0 : Heap) (r : Nat) : Heap × Option TrimResult :=
  let canvas := h0.surf r
  if canvas.width = 0 ∨ canvas.height = 0 then (h0, none)
  else if canvas.width * canvas.height > TRIM_LIMIT then
    (h0, some ⟨r, canvas.width, canvas.height⟩)
  else if env.srcCtxOk = false then (h0, none)
  else
    let width := canvas.width
    let height := canvas.height
    let st := scan canvas.data width height
    if st.hasAlpha = false then (h0, none)
    else
      let croppedWidth := st.maxX - st.minX + 1
      let croppedHeight := st.maxY - st.minY + 1
      if croppedWidth = width ∧ croppedHeight = height then (h0, some ⟨r, width, height⟩)
      else
        let r2 := h0.next
        let h1 := allocCanvas h0 croppedWidth croppedHeight
        if env.croppedCtxOk then
          if env.drawOk then
            (writeCanvas h1 r2 (cropSurface canvas st.minX st.minY croppedWidth croppedHeight),
              some ⟨r2, croppedWidth, croppedHeight⟩)
          else (h1, some ⟨r, canvas.width, canvas.height⟩)
        else (h1, some ⟨r2, croppedWidth, croppedHeight⟩)

/-- Entry of `trimCanvas`: the `input instanceof HTMLCanvasElement`
dispatch, materializing raw layers and propagating a null materialization
before `trimFromCanvas` takes over at the `canvas` binding. -/
def trimCanvas (env : Env) (h : Heap) (input : TrimInput) : Heap × Option TrimResult :=
  match input with
  | Sum.inl r => trimFromCanvas env h r
  | Sum.inr layer =>
    match imageDataToCanvas env h layer with
    | (h0, none) => (h0, none)
    | (h0, some r) => trimFromCanvas env h0 r

/-- Naming styles of the export UI (`'original' | 'snake_case' |
'kebab-case' | 'PascalCase'` in `App.tsx`). -/
inductive NamingStyle where
  | original
  | snakeCase
  | kebabCase
  | pascalCase
deriving DecidableEq

/-- Character class of the sanitizing regex `[/\\?%*:|"<>]` in
`transformName`. -/
def isUnsafeChar (c : Char) : Bool :=
  c = '/' || c = '\\' || c = '?' || c = '%' || c = '*' || c = ':' ||
  c = '|' || c = '"' || c = '<' || c = '>'

/-- Global replacement of each maximal whitespace run by one copy of
`rep`, the effect of `.replace(/\s+/g, rep)`; the boolean tracks whether
the previous character was whitespace. -/
def collapseWs (rep : Char) : Bool → List Char → List Char
  | _, [] => []
  | inRun, c :: cs =>
    if c.isWhitespace then
      if inRun then collapseWs rep true cs else rep :: collapseWs rep true cs
    else c :: collapseWs rep false cs

/-- Word character of the JavaScript regex class `\w`. -/
def isWordChar (c : Char) : Bool :=
  c.isAlphanum || c = '_'

/-- Per-word capitalization of `.replace(/(\w)(\w*)/g, ...)`: the first
character of each maximal word run is uppercased, the rest lowercased;
other characters pass through. -/
def pascalChars : Bool → List Char → List Char
  | _, [] => []
  | inWord, c :: cs =>
    if isWordChar c then
      (if inWord then c.toLower else c.toUpper) :: pascalChars true cs
    else c :: pascalChars false cs

/-- Removal of leading and trailing whitespace, the effect of `.trim()`. -/
def trimChars (l : List Char) : List Char :=
  ((l.dropWhile Char.isWhitespace).reverse.dropWhile Char.isWhitespace).reverse

/-- Embedding of `transformName` from `src/App.tsx`: strip path-unsafe
characters to `_`, trim surrounding whitespace, then apply the selected
case style to the sanitized base name (string contents are handled as
character lists). -/
def transformName (name : String) (style : NamingStyle) : String :=
  let base := trimChars (name.data.map fun c => if isUnsafeChar c then '_' else c)
  match style with
  | .original => ⟨base⟩
  | .snakeCase => ⟨collapseWs '_' false (base.map Char.toLower)⟩
  | .kebabCase => ⟨collapseWs '-' false (base.map Char.toLower)⟩
  | .pascalCase => ⟨(pascalChars false base).filter fun c => !c.isWhitespace⟩

/-- Layer node kind (`type: 'layer' | 'group'` in `src/types.ts`). -/
inductive LayerType where
  | group
  | layer
deriving DecidableEq

/-- UI-facing layer tree node (`PsdLayer` in `src/types.ts`), restricted
to the fields the export orchestrator consumes: `id`, `name`, `type`,
`isSelected` and the optional `children` list (presentation-only fields
`visible`, `opacity` and the geometry are never read by the embedded
operations). -/
inductive PsdLayer where
  | mk (id : Nat) (name : String) (type : LayerType) (isSelected : Bool)
      (children : Option (List PsdLayer))

mutual

/-- Contribution of one node to the selected-layer pre-count: one when
`l.isSelected && l.type === 'layer'`, plus the count of any `children`
list. -/
def countSelNode : PsdLayer → Nat
  | .mk _ _ ty sel children =>
    (if sel && ty == .layer then 1 else 0) +
    (match children with
     | some cs => countSelected cs
     | none => 0)

/-- Embedding of the selected-layer pre-count (the `stats.selected`
computation in `App.tsx`, identically the inline `countSelected` of the
orchestrator variants). -/
def countSelected : List PsdLayer → Nat
  | [] => 0
  | l :: rest => countSelNode l + countSelected rest

end

mutual

/-- Node part of the spec's data-model invariant (section 3): only group
nodes carry a `children` list. -/
def wfNode : PsdLayer → Bool
  | .mk _ _ ty _ children =>
    match children with
    | some cs => ty == .group && wfLayers cs
    | none => true

/-- List part of the data-model invariant. -/
def wfLayers : List PsdLayer → Bool
  | [] => true
  | l :: rest => wfNode l && wfLayers rest

end

mutual

/-- Node part of `payloadsOk`: a selected leaf layer has its raw pixel
payload present in the identity lookup table (`layerMapRef`). -/
def payloadNode (layerMap : Nat → Option RawLayer) : PsdLayer → Bool
  | .mk id _ ty sel children =>
    (if ty == .layer && sel then (layerMap id).isSome else true) &&
    (match children with
     | some cs => payloadsOk layerMap cs
     | none => true)

/-- Every selected leaf layer of the list has its payload present. -/
def payloadsOk (layerMap : Nat → Option RawLayer) : List PsdLayer → Bool
  | [] => true
  | l :: rest => payloadNode layerMap l && payloadsOk layerMap rest

end

/-- Orchestrator state threaded through the export walk: the canvas heap,
the `processedCount` counter, the chronological list of `processedCount`
values published through `setState` progress updates, and the archive
sink's recorded `file`/`folder` calls (full paths, in call order). -/
structure OrchSt where
  heap : Heap
  processedCount : Nat
  events : List Nat
  files : List String
  folders : List String

/-!
Embedding of `processLevel` from `src/App.tsx` (`exportAssets`'s
depth-first walk). `curPath` is the path of the `currentZip` folder
handle and `pfxPath` the accumulated name text. Group nodes create a
folder and recurse into their children with the folder handle and (when
the folder-structure toggle is on) an extended text accumulation;
selected layer nodes with a payload in the lookup table bump
`processedCount`, publish it, run `trimCanvas`, and on a non-null result
with a non-null encoded blob add the file — exactly as in the source —
through the root archive handle at path `pfxPath + cleanName + ".png"`
(the call is `zip.file(...)`, not `currentZip.file(...)`). -/
mutual

/-- Body of the `for (const l of list)` loop of `processLevel` for one
node; see the comment on the mutual block above. -/
def processNode (env : Env) (layerMap : Nat → Option RawLayer) (style : NamingStyle)
    (useFolderPfx : Bool) : PsdLayer → String → String → OrchSt → OrchSt
  | .mk id nm ty sel children, curPath, pfxPath, st =>
    let cleanName := transformName nm style
    if ty = .group then
      let folderPath := curPath ++ cleanName ++ "/"
      let stF := {st with folders := st.folders ++ [folderPath]}
      match children with
      | some cs =>
        processLevel env layerMap style useFolderPfx cs folderPath
          (if useFolderPfx then pfxPath ++ cleanName ++ "_" else "") stF
      | none => stF
    else if sel then
      match layerMap id with
      | some raw =>
        let published := st.processedCount + 1
        let stP := {st with processedCount := published, events := st.events ++ [published]}
        let tr := trimCanvas env stP.heap (Sum.inr raw)
        let stH := {stP with heap := tr.1}
        match tr.2 with
        | some _ =>
          if env.encodeOk then {stH with files := stH.files ++ [pfxPath ++ cleanName ++ ".png"]}
          else stH
        | none => stH
      | none => st
    else st

/-- Walk of one layer list, folding `processNode` left to right. -/
def processLevel (env : Env) (layerMap : Nat → Option RawLayer) (style : NamingStyle)
    (useFolderPfx : Bool) : List PsdLayer → String → String → OrchSt → OrchSt
  | [], _, _, st => st
  | l :: rest, curPath, pfxPath, st =>
    processLevel env layerMap style useFolderPfx rest curPath pfxPath
      (processNode env layerMap style useFolderPfx l curPath pfxPath st)

end

/-- Outcome of one `exportAssets` invocation: the silent early return on
an empty tree, the "nothing selected" abort, or a completed walk whose
archive was finalized. -/
inductive ExportOutcome where
  | noLayers
  | nothingSelected
  | done
deriving DecidableEq

/-- Result of `exportAssets`: outcome, final orchestrator state, and
whether archive finalization (`zip.generateAsync`) was requested. -/
structure ExportResult where
  outcome : ExportOutcome
  st : OrchSt
  finalized : Bool

/-- Initial orchestrator state over a given canvas heap. -/
def initSt (h : Heap) : OrchSt :=
  ⟨h, 0, [], [], []⟩

/-- Embedding of `exportAssets` from `src/App.tsx`: return silently when
the layer list is empty; pre-count the selected layers and abort with the
"nothing selected" outcome (no sink call) when the count is zero; else
run the `processLevel` walk from the archive root and finalize. -/
def exportAssets (env : Env) (layerMap : Nat → Option RawLayer) (style : NamingStyle)
    (useFolderPfx : Bool) (layers : List PsdLayer) (h : Heap) : ExportResult :=
  if layers.isEmpty then ⟨.noLayers, initSt h, false⟩
  else
    let totalLayers := countSelected layers
    if totalLayers = 0 then ⟨.nothingSelected, initSt h, false⟩
    else ⟨.done, processLevel env layerMap style useFolderPfx layers "" "" (initSt h), true⟩

/-! Concrete inputs used by witnesses, counterexamples and the code-bug
evaluation below. -/

/-- RGBA buffer whose every channel is 255 exactly on the pixels of the
rectangle with corners (2,3) and (5,7), for a surface of width `w`. -/
def rectByte (w : Nat) : Nat → Nat := fun i =>
  if 2 ≤ i / 4 % w ∧ i / 4 % w ≤ 5 ∧ 3 ≤ i / 4 / w ∧ i / 4 / w ≤ 7 then 255 else 0

/-- Small surface (6 by 8) whose visible content is exactly the rectangle
(2,3)..(5,7). -/
def rectSurfSmall : Surface := ⟨6, 8, rectByte 6⟩

/-- Huge surface (2000001 by 9, over the scan ceiling) whose visible
content is exactly the rectangle (2,3)..(5,7). -/
def rectSurfBig : Surface := ⟨2000001, 9, rectByte 2000001⟩

/-- Heap holding one allocated canvas at reference 0. -/
def oneSurfHeap (s : Surface) : Heap := ⟨fun _ => s, 1⟩

/-- Fully opaque surface. -/
def opaqueSurf (w h : Nat) : Surface := ⟨w, h, fun _ => 255⟩

/-- Fully transparent surface. -/
def clearSurf (w h : Nat) : Surface := ⟨w, h, fun _ => 0⟩

/-- Surface of size 3 by 3 whose only nonzero byte is the alpha of the
center pixel (1,1). -/
def dotSurf3 : Surface := ⟨3, 3, fun i => if i = (1 * 3 + 1) * 4 + 3 then 255 else 0⟩

/-- Environment in which `drawImage` throws and everything else works. -/
def envDrawFail : Env := ⟨true, true, true, true, false, true⟩

/-- Environment in which `getContext` on the cropped canvas returns null
and everything else works. -/
def envCropCtxFail : Env := ⟨true, true, true, false, true, true⟩

/-- Raw 1-by-1 fully opaque layer. -/
def rawOpaque1x1 : RawLayer := ⟨none, some (fun _ => 255), 1, 1⟩

/-- Oversized raw layer (7000 by 7000 is 49 million pixels) with no
precomputed canvas. -/
def oversizedLayer : RawLayer := ⟨none, some (fun _ => 0), 7000, 7000⟩

/-- Oversized layer that carries a precomputed canvas reference. -/
def oversizedPrecomputed : RawLayer := ⟨some 0, none, 7000, 7000⟩

/-- Heap with nothing allocated. -/
def emptyHeap : Heap := ⟨fun _ => blankSurface 0 0, 0⟩

/-- Payload lookup table of the concrete export runs: layers 1 and 3 have
an opaque 1-by-1 payload. -/
def layerMapC1 : Nat → Option RawLayer := fun i =>
  if i = 1 ∨ i = 3 then some rawOpaque1x1 else none

/-- Concrete tree `Root{ GroupA{ leaf1(selected), leaf2(unselected) },
leaf3(selected) }` of the folder-mirroring property. -/
def treeC1 : List PsdLayer :=
  [.mk 0 "GroupA" .group false
    (some [.mk 1 "leaf1" .layer true none, .mk 2 "leaf2" .layer false none]),
   .mk 3 "leaf3" .layer true none]

/-- Nonempty tree with no selected layer. -/
def treeUnselected : List PsdLayer := [.mk 0 "a" .layer false none]

/-! Properties of one scan step. Throughout, `d` is the byte store and `w`
the surface width, so the alpha byte of pixel `p` is
`d ((p.2 * w + p.1) * 4 + 3)`. -/

theorem scanStep_minX_le (d : Nat → Nat) (w : Nat) (st : ScanState) (p : Nat × Nat) :
    (scanStep d w st p).minX ≤ st.minX := by
  unfold scanStep
  dsimp only
  split
  · dsimp only; split <;> omega
  · exact Nat.le_refl _

theorem scanStep_le_minX (d : Nat → Nat) (w : Nat) (st : ScanState) (p : Nat × Nat) (c : Nat)
    (h1 : c ≤ st.minX) (h2 : 0 < d ((p.2 * w + p.1) * 4 + 3) → c ≤ p.1) :
    c ≤ (scanStep d w st p).minX := by
  unfold scanStep
  dsimp only
  split
  · rename_i hpos
    have := h2 hpos
    dsimp only
    split <;> omega
  · exact h1

theorem scanStep_maxX_ge (d : Nat → Nat) (w : Nat) (st : ScanState) (p : Nat × Nat) :
    st.maxX ≤ (scanStep d w st p).maxX := by
  unfold scanStep
  dsimp only
  split
  · dsimp only; split <;> omega
  · exact Nat.le_refl _

theorem scanStep_maxX_le (d : Nat → Nat) (w : Nat) (st : ScanState) (p : Nat × Nat) (c : Nat)
    (h1 : st.maxX ≤ c) (h2 : 0 < d ((p.2 * w + p.1) * 4 + 3) → p.1 ≤ c) :
    (scanStep d w st p).maxX ≤ c := by
  unfold scanStep
  dsimp only
  split
  · rename_i hpos
    have := h2 hpos
    dsimp only
    split <;> omega
  · exact h1

theorem scanStep_minY_le (d : Nat → Nat) (w : Nat) (st : ScanState) (p : Nat × Nat) :
    (scanStep d w st p).minY ≤ st.minY := by
  unfold scanStep
  dsimp only
  split
  · dsimp only; split <;> omega
  · exact Nat.le_refl _

theorem scanStep_le_minY (d : Nat → Nat) (w : Nat) (st : ScanState) (p : Nat × Nat) (c : Nat)
    (h1 : c ≤ st.minY) (h2 : 0 < d ((p.2 * w + p.1) * 4 + 3) → c ≤ p.2) :
    c ≤ (scanStep d w st p).minY := by
  unfold scanStep
  dsimp only
  split
  · rename_i hpos
    have := h2 hpos
    dsimp only
    split <;> omega
  · exact h1

theorem scanStep_maxY_ge (d : Nat → Nat) (w : Nat) (st : ScanState) (p : Nat × Nat) :
    st.maxY ≤ (scanStep d w st p).maxY := by
  unfold scanStep
  dsimp only
  split
  · dsimp only; split <;> omega
  · exact Nat.le_refl _

theorem scanStep_maxY_le (d : Nat → Nat) (w : Nat) (st : ScanState) (p : Nat × Nat) (c : Nat)
    (h1 : st.maxY ≤ c) (h2 : 0 < d ((p.2 * w + p.1) * 4 + 3) → p.2 ≤ c) :
    (scanStep d w st p).maxY ≤ c := by
  unfold scanStep
  dsimp only
  split
  · rename_i hpos
    have := h2 hpos
    dsimp only
    split <;> omega
  · exact h1

theorem scanStep_hasAlpha_mono (d : Nat → Nat) (w : Nat) (st : ScanState) (p : Nat × Nat)
    (h : st.hasAlpha = true) : (scanStep d w st p).hasAlpha = true := by
  unfold scanStep
  dsimp only
  split
  · rfl
  · exact h

theorem scanStep_hasAlpha_of_pos (d : Nat → Nat) (w : Nat) (st : ScanState) (p : Nat × Nat)
    (h : 0 < d ((p.2 * w + p.1) * 4 + 3)) : (scanStep d w st p).hasAlpha = true := by
  unfold scanStep
  dsimp only
  split
  · rfl
  · omega

theorem scanStep_minX_le_fst (d : Nat → Nat) (w : Nat) (st : ScanState) (p : Nat × Nat)
    (h : 0 < d ((p.2 * w + p.1) * 4 + 3)) : (scanStep d w st p).minX ≤ p.1 := by
  unfold scanStep
  dsimp only
  split
  · dsimp only; split <;> omega
  · omega

theorem scanStep_fst_le_maxX (d : Nat → Nat) (w : Nat) (st : ScanState) (p : Nat × Nat)
    (h : 0 < d ((p.2 * w + p.1) * 4 + 3)) : p.1 ≤ (scanStep d w st p).maxX := by
  unfold scanStep
  dsimp only
  split
  · dsimp only; split <;> omega
  · omega

theorem scanStep_minY_le_snd (d : Nat → Nat) (w : Nat) (st : ScanState) (p : Nat × Nat)
    (h : 0 < d ((p.2 * w + p.1) * 4 + 3)) : (scanStep d w st p).minY ≤ p.2 := by
  unfold scanStep
  dsimp only
  split
  · dsimp only; split <;> omega
  · omega

theorem scanStep_snd_le_maxY (d : Nat → Nat) (w : Nat) (st : ScanState) (p : Nat × Nat)
    (h : 0 < d ((p.2 * w + p.1) * 4 + 3)) : p.2 ≤ (scanStep d w st p).maxY := by
  unfold scanStep
  dsimp only
  split
  · dsimp only; split <;> omega
  · omega

theorem scanStep_eq_of_zero (d : Nat → Nat) (w : Nat) (st : ScanState) (p : Nat × Nat)
    (h : d ((p.2 * w + p.1) * 4 + 3) = 0) : scanStep d w st p = st := by
  unfold scanStep
  dsimp only
  split
  · omega
  · rfl

/-! Properties of the scan fold over an arbitrary pixel list. -/

theorem scanFoldl_minX_le (d : Nat → Nat) (w : Nat) (l : List (Nat × Nat)) :
    ∀ st : ScanState, (l.foldl (scanStep d w) st).minX ≤ st.minX := by
  induction l with
  | nil => intro st; exact Nat.le_refl _
  | cons p l ih =>
    intro st
    exact Nat.le_trans (ih _) (scanStep_minX_le d w st p)

theorem scanFoldl_le_minX (d : Nat → Nat) (w : Nat) (l : List (Nat × Nat)) (c : Nat)
    (hall : ∀ p ∈ l, 0 < d ((p.2 * w + p.1) * 4 + 3) → c ≤ p.1) :
    ∀ st : ScanState, c ≤ st.minX → c ≤ (l.foldl (scanStep d w) st).minX := by
  induction l with
  | nil => intro st h; exact h
  | cons p l ih =>
    intro st h
    exact ih (fun q hq => hall q (List.mem_cons_of_mem p hq)) _
      (scanStep_le_minX d w st p c h (hall p (List.mem_cons_self p l)))

theorem scanFoldl_minX_le_of_mem (d : Nat → Nat) (w : Nat) (l : List (Nat × Nat))
    (p : Nat × Nat) (hp : p ∈ l) (hpos : 0 < d ((p.2 * w + p.1) * 4 + 3)) :
    ∀ st : ScanState, (l.foldl (scanStep d w) st).minX ≤ p.1 := by
  induction l with
  | nil => cases hp
  | cons q l ih =>
    intro st
    rcases List.mem_cons.mp hp with h | h
    · subst h
      exact Nat.le_trans (scanFoldl_minX_le d w l _) (scanStep_minX_le_fst d w st p hpos)
    · exact ih h _

theorem scanFoldl_maxX_ge (d : Nat → Nat) (w : Nat) (l : List (Nat × Nat)) :
    ∀ st : ScanState, st.maxX ≤ (l.foldl (scanStep d w) st).maxX := by
  induction l with
  | nil => intro st; exact Nat.le_refl _
  | cons p l ih =>
    intro st
    exact Nat.le_trans (scanStep_maxX_ge d w st p) (ih _)

theorem scanFoldl_maxX_le (d : Nat → Nat) (w : Nat) (l : List (Nat × Nat)) (c : Nat)
    (hall : ∀ p ∈ l, 0 < d ((p.2 * w + p.1) * 4 + 3) → p.1 ≤ c) :
    ∀ st : ScanState, st.maxX ≤ c → (l.foldl (scanStep d w) st).maxX ≤ c := by
  induction l with
  | nil => intro st h; exact h
  | cons p l ih =>
    intro st h
    exact ih (fun q hq => hall q (List.mem_cons_of_mem p hq)) _
      (scanStep_maxX_le d w st p c h (hall p (List.mem_cons_self p l)))

theorem scanFoldl_fst_le_maxX (d : Nat → Nat) (w : Nat) (l : List (Nat × Nat))
    (p : Nat × Nat) (hp : p ∈ l) (hpos : 0 < d ((p.2 * w + p.1) * 4 + 3)) :
    ∀ st : ScanState, p.1 ≤ (l.foldl (scanStep d w) st).maxX := by
  induction l with
  | nil => cases hp
  | cons q l ih =>
    intro st
    rcases List.mem_cons.mp hp with h | h
    · subst h
      exact Nat.le_trans (scanStep_fst_le_maxX d w st p hpos) (scanFoldl_maxX_ge d w l _)
    · exact ih h _

theorem scanFoldl_minY_le (d : Nat → Nat) (w : Nat) (l : List (Nat × Nat)) :
    ∀ st : ScanState, (l.foldl (scanStep d w) st).minY ≤ st.minY := by
  induction l with
  | nil => intro st; exact Nat.le_refl _
  | cons p l ih =>
    intro st
    exact Nat.le_trans (ih _) (scanStep_minY_le d w st p)

theorem scanFoldl_le_minY (d : Nat → Nat) (w : Nat) (l : List (Nat × Nat)) (c : Nat)
    (hall : ∀ p ∈ l, 0 < d ((p.2 * w + p.1) * 4 + 3) → c ≤ p.2) :
    ∀ st : ScanState, c ≤ st.minY → c ≤ (l.foldl (scanStep d w) st).minY := by
  induction l with
  | nil => intro st h; exact h
  | cons p l ih =>
    intro st h
    exact ih (fun q hq => hall q (List.mem_cons_of_mem p hq)) _
      (scanStep_le_minY d w st p c h (hall p (List.mem_cons_self p l)))

theorem scanFoldl_minY_le_of_mem (d : Nat → Nat) (w : Nat) (l : List (Nat × Nat))
    (p : Nat × Nat) (hp : p ∈ l) (hpos : 0 < d ((p.2 * w + p.1) * 4 + 3)) :
    ∀ st : ScanState, (l.foldl (scanStep d w) st).minY ≤ p.2 := by
  induction l with
  | nil => cases hp
  | cons q l ih =>
    intro st
    rcases List.mem_cons.mp hp with h | h
    · subst h
      exact Nat.le_trans (scanFoldl_minY_le d w l _) (scanStep_minY_le_snd d w st p hpos)
    · exact ih h _

theorem scanFoldl_maxY_ge (d : Nat → Nat) (w : Nat) (l : List (Nat × Nat)) :
    ∀ st : ScanState, st.maxY ≤ (l.foldl (scanStep d w) st).maxY := by
  induction l with
  | nil => intro st; exact Nat.le_refl _
  | cons p l ih =>
    intro st
    exact Nat.le_trans (scanStep_maxY_ge d w st p) (ih _)

theorem scanFoldl_maxY_le (d : Nat → Nat) (w : Nat) (l : List (Nat × Nat)) (c : Nat)
    (hall : ∀ p ∈ l, 0 < d ((p.2 * w + p.1) * 4 + 3) → p.2 ≤ c) :
    ∀ st : ScanState, st.maxY ≤ c → (l.foldl (scanStep d w) st).maxY ≤ c := by
  induction l with
  | nil => intro st h; exact h
  | cons p l ih =>
    intro st h
    exact ih (fun q hq => hall q (List.mem_cons_of_mem p hq)) _
      (scanStep_maxY_le d w st p c h (hall p (List.mem_cons_self p l)))

theorem scanFoldl_snd_le_maxY (d : Nat → Nat) (w : Nat) (l : List (Nat × Nat))
    (p : Nat × Nat) (hp : p ∈ l) (hpos : 0 < d ((p.2 * w + p.1) * 4 + 3)) :
    ∀ st : ScanState, p.2 ≤ (l.foldl (scanStep d w) st).maxY := by
  induction l with
  | nil => cases hp
  | cons q l ih =>
    intro st
    rcases List.mem_cons.mp hp with h | h
    · subst h
      exact Nat.le_trans (scanStep_snd_le_maxY d w st p hpos) (scanFoldl_maxY_ge d w l _)
    · exact ih h _

theorem scanFoldl_hasAlpha_mono (d : Nat → Nat) (w : Nat) (l : List (Nat × Nat)) :
    ∀ st : ScanState, st.hasAlpha = true → (l.foldl (scanStep d w) st).hasAlpha = true := by
  induction l with
  | nil => intro st h; exact h
  | cons p l ih =>
    intro st h
    exact ih _ (scanStep_hasAlpha_mono d w st p h)

theorem scanFoldl_hasAlpha_of_mem (d : Nat → Nat) (w : Nat) (l : List (Nat × Nat))
    (p : Nat × Nat) (hp : p ∈ l) (hpos : 0 < d ((p.2 * w + p.1) * 4 + 3)) :
    ∀ st : ScanState, (l.foldl (scanStep d w) st).hasAlpha = true := by
  induction l with
  | nil => cases hp
  | cons q l ih =>
    intro st
    rcases List.mem_cons.mp hp with h | h
    · subst h
      exact scanFoldl_hasAlpha_mono d w l _ (scanStep_hasAlpha_of_pos d w st p hpos)
    · exact ih h _

theorem scanFoldl_eq_of_all_zero (d : Nat → Nat) (w : Nat) (l : List (Nat × Nat))
    (hall : ∀ p ∈ l, d ((p.2 * w + p.1) * 4 + 3) = 0) :
    ∀ st : ScanState, l.foldl (scanStep d w) st = st := by
  induction l with
  | nil => intro st; rfl
  | cons p l ih =>
    intro st
    rw [List.foldl_cons, scanStep_eq_of_zero d w st p (hall p (List.mem_cons_self p l))]
    exact ih (fun q hq => hall q (List.mem_cons_of_mem p hq)) st

/-- Membership in the raster traversal: exactly the in-bounds pixels. -/
theorem mem_pixelList (w h : Nat) (p : Nat × Nat) :
    p ∈ pixelList w h ↔ p.1 < w ∧ p.2 < h := by
  unfold pixelList
  constructor
  · intro hp
    rcases List.mem_flatMap.mp hp with ⟨y, hy, hmem⟩
    rcases List.mem_map.mp hmem with ⟨x, hx, hxy⟩
    subst hxy
    exact ⟨List.mem_range.mp hx, List.mem_range.mp hy⟩
  · intro ⟨hx, hy⟩
    refine List.mem_flatMap.mpr ⟨p.2, List.mem_range.mpr hy, ?_⟩
    exact List.mem_map.mpr ⟨p.1, List.mem_range.mpr hx, rfl⟩

/-! Heap framing: allocation and writes never touch previously allocated
references. -/

theorem allocCanvas_surf_lt (h : Heap) (w hgt r : Nat) (hr : r < h.next) :
    (allocCanvas h w hgt).surf r = h.surf r := by
  unfold allocCanvas
  exact Function.update_noteq (by omega) _ _

theorem allocCanvas_next (h : Heap) (w hgt : Nat) :
    (allocCanvas h w hgt).next = h.next + 1 := rfl

theorem writeCanvas_surf_ne (h : Heap) (r2 r : Nat) (s : Surface) (hr : r ≠ r2) :
    (writeCanvas h r2 s).surf r = h.surf r := by
  unfold writeCanvas
  exact Function.update_noteq hr _ _

theorem imageDataToCanvas_next_ge (env : Env) (h : Heap) (layer : RawLayer) :
    h.next ≤ ((imageDataToCanvas env h layer).1).next := by
  unfold imageDataToCanvas
  cases layer.canvas with
  | some r => exact Nat.le_refl _
  | none =>
    cases layer.canvasData with
    | none => exact Nat.le_refl _
    | some buf =>
      dsimp only
      split_ifs <;> simp [allocCanvas, writeCanvas]

theorem imageDataToCanvas_surf_lt (env : Env) (h : Heap) (layer : RawLayer) (r : Nat)
    (hr : r < h.next) : ((imageDataToCanvas env h layer).1).surf r = h.surf r := by
  unfold imageDataToCanvas
  cases layer.canvas with
  | some r0 => rfl
  | none =>
    cases layer.canvasData with
    | none => rfl
    | some buf =>
      dsimp only
      split_ifs <;>
        simp [allocCanvas, writeCanvas, Function.update_noteq (show r ≠ h.next by omega)]

theorem trimFromCanvas_surf_lt (env : Env) (h0 : Heap) (r0 r : Nat) (hr : r < h0.next) :
    ((trimFromCanvas env h0 r0).1).surf r = h0.surf r := by
  unfold trimFromCanvas
  dsimp only
  split_ifs <;>
    simp [allocCanvas, writeCanvas, Function.update_noteq (show r ≠ h0.next by omega)]

theorem trimCanvas_surf_lt (env : Env) (h : Heap) (input : TrimInput) (r : Nat)
    (hr : r < h.next) : ((trimCanvas env h input).1).surf r = h.surf r := by
  cases input with
  | inl r0 =>
    simp only [trimCanvas]
    exact trimFromCanvas_surf_lt env h r0 r hr
  | inr layer =>
    have hnext := imageDataToCanvas_next_ge env h layer
    have hsurf := imageDataToCanvas_surf_lt env h layer r hr
    rcases hmat : imageDataToCanvas env h layer with ⟨h0, oc⟩
    rw [hmat] at hnext hsurf
    simp only at hnext hsurf
    simp only [trimCanvas, hmat]
    cases oc with
    | none => exact hsurf
    | some r0 =>
      rw [trimFromCanvas_surf_lt env h0 r0 r (Nat.lt_of_lt_of_le hr hnext)]
      exact hsurf

/-! Characterizations of the full-raster scan under specific alpha
layouts. -/

/-- Scan of a surface whose visible content is exactly the rectangle
(2,3)..(5,7): the bounding box is that rectangle. -/
theorem scan_rect (c : Surface) (hw : 5 < c.width) (hh : 7 < c.height)
    (halpha : ∀ x, x < c.width → ∀ y, y < c.height →
      (0 < alphaAt c x y ↔ (2 ≤ x ∧ x ≤ 5 ∧ 3 ≤ y ∧ y ≤ 7))) :
    scan c.data c.width c.height = ⟨2, 3, 5, 7, true⟩ := by
  unfold scan
  have hpos : ∀ p : Nat × Nat, p ∈ pixelList c.width c.height →
      0 < c.data ((p.2 * c.width + p.1) * 4 + 3) →
      2 ≤ p.1 ∧ p.1 ≤ 5 ∧ 3 ≤ p.2 ∧ p.2 ≤ 7 := by
    intro p hp hpp
    obtain ⟨hx, hy⟩ := (mem_pixelList _ _ _).mp hp
    exact (halpha p.1 hx p.2 hy).mp hpp
  have hmem23 : ((2, 3) : Nat × Nat) ∈ pixelList c.width c.height :=
    (mem_pixelList _ _ _).mpr ⟨by omega, by omega⟩
  have hpos23 : 0 < c.data ((3 * c.width + 2) * 4 + 3) :=
    (halpha 2 (by omega) 3 (by omega)).mpr ⟨by omega, by omega, by omega, by omega⟩
  have hmem53 : ((5, 3) : Nat × Nat) ∈ pixelList c.width c.height :=
    (mem_pixelList _ _ _).mpr ⟨by omega, by omega⟩
  have hpos53 : 0 < c.data ((3 * c.width + 5) * 4 + 3) :=
    (halpha 5 (by omega) 3 (by omega)).mpr ⟨by omega, by omega, by omega, by omega⟩
  have hmem27 : ((2, 7) : Nat × Nat) ∈ pixelList c.width c.height :=
    (mem_pixelList _ _ _).mpr ⟨by omega, by omega⟩
  have hpos27 : 0 < c.data ((7 * c.width + 2) * 4 + 3) :=
    (halpha 2 (by omega) 7 (by omega)).mpr ⟨by omega, by omega, by omega, by omega⟩
  have hminX_le := scanFoldl_minX_le_of_mem c.data c.width _ _ hmem23 hpos23
    (⟨c.width, c.height, 0, 0, false⟩ : ScanState)
  have hminX_ge := scanFoldl_le_minX c.data c.width _ 2
    (fun p hp hpp => (hpos p hp hpp).1) (⟨c.width, c.height, 0, 0, false⟩ : ScanState)
    (by dsimp only; omega)
  have hmaxX_ge := scanFoldl_fst_le_maxX c.data c.width _ _ hmem53 hpos53
    (⟨c.width, c.height, 0, 0, false⟩ : ScanState)
  have hmaxX_le := scanFoldl_maxX_le c.data c.width _ 5
    (fun p hp hpp => (hpos p hp hpp).2.1) (⟨c.width, c.height, 0, 0, false⟩ : ScanState)
    (by dsimp only; omega)
  have hminY_le := scanFoldl_minY_le_of_mem c.data c.width _ _ hmem23 hpos23
    (⟨c.width, c.height, 0, 0, false⟩ : ScanState)
  have hminY_ge := scanFoldl_le_minY c.data c.width _ 3
    (fun p hp hpp => (hpos p hp hpp).2.2.1) (⟨c.width, c.height, 0, 0, false⟩ : ScanState)
    (by dsimp only; omega)
  have hmaxY_ge := scanFoldl_snd_le_maxY c.data c.width _ _ hmem27 hpos27
    (⟨c.width, c.height, 0, 0, false⟩ : ScanState)
  have hmaxY_le := scanFoldl_maxY_le c.data c.width _ 7
    (fun p hp hpp => (hpos p hp hpp).2.2.2) (⟨c.width, c.height, 0, 0, false⟩ : ScanState)
    (by dsimp only; omega)
  have hAlpha := scanFoldl_hasAlpha_of_mem c.data c.width _ _ hmem23 hpos23
    (⟨c.width, c.height, 0, 0, false⟩ : ScanState)
  set res := (pixelList c.width c.height).foldl (scanStep c.data c.width)
    (⟨c.width, c.height, 0, 0, false⟩ : ScanState) with hres
  have e1 : res.minX = 2 := by omega
  have e2 : res.minY = 3 := by omega
  have e3 : res.maxX = 5 := by omega
  have e4 : res.maxY = 7 := by omega
  calc res = ⟨res.minX, res.minY, res.maxX, res.maxY, res.hasAlpha⟩ := rfl
    _ = ⟨2, 3, 5, 7, true⟩ := by rw [e1, e2, e3, e4, hAlpha]

/-- Scan of a surface with visible content in column 0, column
`width - 1`, row 0 and row `height - 1`: the bounding box is the full
extent. -/
theorem scan_full (c : Surface)
    (hA : ∃ y, y < c.height ∧ 0 < alphaAt c 0 y)
    (hB : ∃ y, y < c.height ∧ 0 < alphaAt c (c.width - 1) y)
    (hC : ∃ x, x < c.width ∧ 0 < alphaAt c x 0)
    (hD : ∃ x, x < c.width ∧ 0 < alphaAt c x (c.height - 1)) :
    scan c.data c.width c.height = ⟨0, 0, c.width - 1, c.height - 1, true⟩ := by
  obtain ⟨yA, hyA, hposA⟩ := hA
  obtain ⟨yB, hyB, hposB⟩ := hB
  obtain ⟨xC, hxC, hposC⟩ := hC
  obtain ⟨xD, hxD, hposD⟩ := hD
  have hw : 0 < c.width := by
    rcases Nat.eq_zero_or_pos c.width with h | h
    · omega
    · exact h
  have hh : 0 < c.height := by omega
  unfold scan
  have hmemA : ((0, yA) : Nat × Nat) ∈ pixelList c.width c.height :=
    (mem_pixelList _ _ _).mpr ⟨hw, hyA⟩
  have hmemB : ((c.width - 1, yB) : Nat × Nat) ∈ pixelList c.width c.height :=
    (mem_pixelList _ _ _).mpr ⟨by omega, hyB⟩
  have hmemC : ((xC, 0) : Nat × Nat) ∈ pixelList c.width c.height :=
    (mem_pixelList _ _ _).mpr ⟨hxC, hh⟩
  have hmemD : ((xD, c.height - 1) : Nat × Nat) ∈ pixelList c.width c.height :=
    (mem_pixelList _ _ _).mpr ⟨hxD, by omega⟩
  have hminX_le := scanFoldl_minX_le_of_mem c.data c.width _ _ hmemA hposA
    (⟨c.width, c.height, 0, 0, false⟩ : ScanState)
  have hmaxX_ge := scanFoldl_fst_le_maxX c.data c.width _ _ hmemB hposB
    (⟨c.width, c.height, 0, 0, false⟩ : ScanState)
  have hmaxX_le := scanFoldl_maxX_le c.data c.width _ (c.width - 1)
    (fun p hp _ => by
      have := (mem_pixelList c.width c.height p).mp hp
      omega)
    (⟨c.width, c.height, 0, 0, false⟩ : ScanState) (by dsimp only; omega)
  have hminY_le := scanFoldl_minY_le_of_mem c.data c.width _ _ hmemC hposC
    (⟨c.width, c.height, 0, 0, false⟩ : ScanState)
  have hmaxY_ge := scanFoldl_snd_le_maxY c.data c.width _ _ hmemD hposD
    (⟨c.width, c.height, 0, 0, false⟩ : ScanState)
  have hmaxY_le := scanFoldl_maxY_le c.data c.width _ (c.height - 1)
    (fun p hp _ => by
      have := (mem_pixelList c.width c.height p).mp hp
      omega)
    (⟨c.width, c.height, 0, 0, false⟩ : ScanState) (by dsimp only; omega)
  have hAlpha := scanFoldl_hasAlpha_of_mem c.data c.width _ _ hmemA hposA
    (⟨c.width, c.height, 0, 0, false⟩ : ScanState)
  set res := (pixelList c.width c.height).foldl (scanStep c.data c.width)
    (⟨c.width, c.height, 0, 0, false⟩ : ScanState) with hres
  have e1 : res.minX = 0 := by omega
  have e2 : res.minY = 0 := by omega
  have e3 : res.maxX = c.width - 1 := by omega
  have e4 : res.maxY = c.height - 1 := by omega
  calc res = ⟨res.minX, res.minY, res.maxX, res.maxY, res.hasAlpha⟩ := rfl
    _ = ⟨0, 0, c.width - 1, c.height - 1, true⟩ := by rw [e1, e2, e3, e4, hAlpha]

/-- Scan of a fully transparent surface: the initial state survives, in
particular `hasAlpha` stays false. -/
theorem scan_all_zero (c : Surface)
    (hzero : ∀ x, x < c.width → ∀ y, y < c.height → alphaAt c x y = 0) :
    scan c.data c.width c.height = ⟨c.width, c.height, 0, 0, false⟩ := by
  unfold scan
  exact scanFoldl_eq_of_all_zero c.data c.width _
    (fun p hp => by
      obtain ⟨hx, hy⟩ := (mem_pixelList _ _ _).mp hp
      exact hzero p.1 hx p.2 hy) _

/-- C6: for every surface whose bounding box of nonzero-alpha pixels
equals the full surface extent (witnessed by visible pixels in column 0,
column width-1, row 0 and row height-1), and a working source context,
`trimCanvas` returns the original canvas reference with the input's width
and height and leaves the heap unchanged — trimming an already-trimmed
surface is the identity on dimensions and pixel content. -/
theorem c6_trim_idempotent (env : Env) (h : Heap) (r : Nat)
    (henv : env.srcCtxOk = true)
    (hA : ∃ y, y < (h.surf r).height ∧ 0 < alphaAt (h.surf r) 0 y)
    (hB : ∃ y, y < (h.surf r).height ∧ 0 < alphaAt (h.surf r) ((h.surf r).width - 1) y)
    (hC : ∃ x, x < (h.surf r).width ∧ 0 < alphaAt (h.surf r) x 0)
    (hD : ∃ x, x < (h.surf r).width ∧ 0 < alphaAt (h.surf r) x ((h.surf r).height - 1)) :
    trimCanvas env h (Sum.inl r) = (h, some ⟨r, (h.surf r).width, (h.surf r).height⟩) := by
  have hscan := scan_full (h.surf r) hA hB hC hD
  have hw : 0 < (h.surf r).width := by
    obtain ⟨x, hx, _⟩ := hC
    omega
  have hh : 0 < (h.surf r).height := by
    obtain ⟨y, hy, _⟩ := hA
    omega
  simp only [trimCanvas]
  unfold trimFromCanvas
  dsimp only
  rw [hscan]
  split_ifs with h1 h2 h3 h4 h5
  · omega
  · rfl
  · rw [henv] at h3
    cases h3
  · simp at h4
  · rfl
  all_goals exact absurd ⟨by dsimp only; omega, by dsimp only; omega⟩ h5

/-- C7: a surface with positive dimensions, pixel count within the scan
ceiling, and every alpha byte zero yields a null trim result (in any
environment: a failing source context also returns null). -/
theorem c7_all_transparent_null (env : Env) (h : Heap) (r : Nat)
    (hw : 0 < (h.surf r).width) (hh : 0 < (h.surf r).height)
    (hlim : (h.surf r).width * (h.surf r).height ≤ TRIM_LIMIT)
    (hzero : ∀ x, x < (h.surf r).width → ∀ y, y < (h.surf r).height →
      alphaAt (h.surf r) x y = 0) :
    (trimCanvas env h (Sum.inl r)).2 = none := by
  have hscan := scan_all_zero (h.surf r) hzero
  simp only [trimCanvas]
  unfold trimFromCanvas
  dsimp only
  rw [hscan]
  split_ifs with h1 h2 h3 h4
  · rfl
  · omega
  · rfl
  · rfl
  all_goals simp at h4

/-- C8 (amended): when the walk reaches the sub-region copy (nonzero
dimensions, below the scan ceiling, working source context, visible
content, bounding box a proper sub-rectangle), the cropped context is
available and `drawImage` throws, the `catch` returns the original,
untrimmed canvas at its full width and height. -/
theorem c8_copy_throw_returns_original (env : Env) (h : Heap) (r : Nat)
    (h1 : ¬((h.surf r).width = 0 ∨ (h.surf r).height = 0))
    (h2 : ¬(h.surf r).width * (h.surf r).height > TRIM_LIMIT)
    (h3 : env.srcCtxOk = true)
    (h4 : (scan (h.surf r).data (h.surf r).width (h.surf r).height).hasAlpha = true)
    (h5 : ¬((scan (h.surf r).data (h.surf r).width (h.surf r).height).maxX -
        (scan (h.surf r).data (h.surf r).width (h.surf r).height).minX + 1 = (h.surf r).width ∧
        (scan (h.surf r).data (h.surf r).width (h.surf r).height).maxY -
        (scan (h.surf r).data (h.surf r).width (h.surf r).height).minY + 1 = (h.surf r).height))
    (h6 : env.croppedCtxOk = true) (h7 : env.drawOk = false) :
    (trimCanvas env h (Sum.inl r)).2 = some ⟨r, (h.surf r).width, (h.surf r).height⟩ := by
  simp only [trimCanvas]
  unfold trimFromCanvas
  dsimp only
  rw [if_neg h1, if_neg h2, if_neg (by rw [h3]; simp), if_neg (by rw [h4]; simp), if_neg h5,
    if_pos h6, if_neg (by rw [h7]; simp)]

/-- C10: `trimCanvas` never mutates its input canvas — the surface stored
at the input reference (width, height and every byte) is unchanged by the
call, in every environment and on every path; only the freshly allocated
cropped canvas is ever written. -/
theorem c10_trim_preserves_input (env : Env) (h : Heap) (r : Nat) (hr : r < h.next) :
    ((trimCanvas env h (Sum.inl r)).1).surf r = h.surf r :=
  trimCanvas_surf_lt env h (Sum.inl r) r hr

/-- C3 (amended): for a layer without a precomputed canvas whose pixel
count exceeds `PIXEL_LIMIT`, `imageDataToCanvas` returns null and the
heap is returned untouched — the guard rejects before any allocation is
attempted. -/
theorem c3_memory_guard_amended (env : Env) (h : Heap) (layer : RawLayer)
    (hpre : layer.canvas = none)
    (hbig : layer.width * layer.height > PIXEL_LIMIT) :
    imageDataToCanvas env h layer = (h, none) := by
  unfold imageDataToCanvas
  rw [hpre]
  cases hcd : layer.canvasData with
  | none => rfl
  | some buf =>
    have hpos : 0 < layer.width * layer.height := Nat.lt_of_le_of_lt (Nat.zero_le _) hbig
    have hne : ¬(layer.width = 0 ∨ layer.height = 0) := by
      rintro (h0 | h0) <;> rw [h0] at hpos <;> simp at hpos
    dsimp only
    rw [if_neg hne, if_pos hbig]

/-- C5 (amended): for every surface within the scan ceiling that contains
the rectangle (2,3)..(5,7) and whose nonzero-alpha pixels are exactly that
rectangle, `trimCanvas` (with working context, copy and draw primitives)
returns a result of width 4 and height 5 whose surface's pixel (0,0)
equals the input surface's pixel (2,3). -/
theorem c5_trim_rect_amended (env : Env) (h : Heap) (r : Nat)
    (hw : 5 < (h.surf r).width) (hh : 7 < (h.surf r).height)
    (hlim : (h.surf r).width * (h.surf r).height ≤ TRIM_LIMIT)
    (halpha : ∀ x, x < (h.surf r).width → ∀ y, y < (h.surf r).height →
      (0 < alphaAt (h.surf r) x y ↔ (2 ≤ x ∧ x ≤ 5 ∧ 3 ≤ y ∧ y ≤ 7)))
    (h3 : env.srcCtxOk = true) (h6 : env.croppedCtxOk = true) (h7 : env.drawOk = true) :
    (trimCanvas env h (Sum.inl r)).2 = some ⟨h.next, 4, 5⟩ ∧
    ∀ ch, ch < 4 → (((trimCanvas env h (Sum.inl r)).1).surf h.next).data ch =
      (h.surf r).data ((3 * (h.surf r).width + 2) * 4 + ch) := by
  have hscan := scan_rect (h.surf r) hw hh halpha
  have hres : trimCanvas env h (Sum.inl r) =
      (writeCanvas (allocCanvas h 4 5) h.next (cropSurface (h.surf r) 2 3 4 5),
        some ⟨h.next, 4, 5⟩) := by
    simp only [trimCanvas]
    unfold trimFromCanvas
    dsimp only
    rw [hscan]
    rw [if_neg (show ¬((h.surf r).width = 0 ∨ (h.surf r).height = 0) by omega),
      if_neg (show ¬(h.surf r).width * (h.surf r).height > TRIM_LIMIT by omega),
      if_neg (show ¬(env.srcCtxOk = false) by rw [h3]; simp),
      if_neg (show ¬((⟨2, 3, 5, 7, true⟩ : ScanState).hasAlpha = false) by decide),
      if_neg (show ¬((⟨2, 3, 5, 7, true⟩ : ScanState).maxX -
          (⟨2, 3, 5, 7, true⟩ : ScanState).minX + 1 = (h.surf r).width ∧
          (⟨2, 3, 5, 7, true⟩ : ScanState).maxY -
          (⟨2, 3, 5, 7, true⟩ : ScanState).minY + 1 = (h.surf r).height) by
        dsimp only; omega),
      if_pos h6, if_pos h7]
    norm_num
  constructor
  · rw [hres]
  · intro ch hch
    rw [hres]
    simp only [writeCanvas, Function.update_same, cropSurface]
    rw [Nat.div_eq_of_lt hch, Nat.mod_eq_of_lt hch]
    norm_num

/-- C5 counterexample: a surface of 2000001 by 9 pixels (18 million,
above the scan ceiling) whose nonzero-alpha pixels are exactly the
rectangle (2,3)..(5,7) satisfies the claim's hypothesis, yet `trimCanvas`
takes the size bypass and returns the full 2000001-wide untrimmed result,
not width 4. -/
theorem c5_trim_rect_counterexample :
    (∀ x, x < rectSurfBig.width → ∀ y, y < rectSurfBig.height →
      (0 < alphaAt rectSurfBig x y ↔ (2 ≤ x ∧ x ≤ 5 ∧ 3 ≤ y ∧ y ≤ 7))) ∧
    (trimCanvas envOk (oneSurfHeap rectSurfBig) (Sum.inl 0)).2 = some ⟨0, 2000001, 9⟩ ∧
    2000001 ≠ 4 := by
  refine ⟨?_, by decide, by decide⟩
  intro x hx y hy
  have hx' : x < 2000001 := hx
  have hy' : y < 9 := hy
  show 0 < rectSurfBig.data ((y * rectSurfBig.width + x) * 4 + 3) ↔ _
  simp only [rectSurfBig, rectByte]
  have e1 : ((y * 2000001 + x) * 4 + 3) / 4 % 2000001 = x := by omega
  have e2 : ((y * 2000001 + x) * 4 + 3) / 4 / 2000001 = y := by omega
  rw [e1, e2]
  split_ifs with hc <;> omega

/-- Concatenation of unit-step ranges. -/
theorem range1_append (s a b : Nat) :
    List.range' s a ++ List.range' (s + a) b = List.range' s (a + b) := by
  have h := List.range'_append s a b 1
  rw [Nat.one_mul] at h
  rw [Nat.add_comm a b]
  exact h

mutual

/-- Node part of the progress bookkeeping: on a well-formed node whose
selected leaves all have payloads, the walk publishes exactly the
consecutive counter values for the node's selected leaves and advances
`processedCount` by their number. -/
theorem processNode_events (env : Env) (layerMap : Nat → Option RawLayer)
    (style : NamingStyle) (pfx : Bool) :
    ∀ (l : PsdLayer) (curPath pfxPath : String) (st : OrchSt),
    wfNode l = true → payloadNode layerMap l = true →
    (processNode env layerMap style pfx l curPath pfxPath st).events =
      st.events ++ List.range' (st.processedCount + 1) (countSelNode l) ∧
    (processNode env layerMap style pfx l curPath pfxPath st).processedCount =
      st.processedCount + countSelNode l
  | .mk id nm ty sel children, curPath, pfxPath, st => by
    intro hwf hpay
    cases ty with
    | group =>
      cases children with
      | some cs =>
        have hwf' : wfLayers cs = true := by
          simp only [wfNode, Bool.and_eq_true] at hwf
          exact hwf.2
        have hpay' : payloadsOk layerMap cs = true := by
          simp only [payloadNode, Bool.and_eq_true] at hpay
          exact hpay.2
        have hrec := processLevel_events env layerMap style pfx cs
          (curPath ++ transformName nm style ++ "/")
          (if pfx then pfxPath ++ transformName nm style ++ "_" else "")
          {st with folders := st.folders ++ [curPath ++ transformName nm style ++ "/"]}
          hwf' hpay'
        simp only [processNode, countSelNode]
        simp only at hrec
        simpa using hrec
      | none =>
        simp only [processNode, countSelNode, countSelected]
        simp
    | layer =>
      cases children with
      | some cs =>
        simp only [wfNode] at hwf
        simp at hwf
      | none =>
        cases hsel : sel with
        | false =>
          simp only [processNode, countSelNode]
          simp
        | true =>
          have hps : (layerMap id).isSome = true := by
            simp only [payloadNode, hsel] at hpay
            simpa using hpay
          obtain ⟨raw, hraw⟩ := Option.isSome_iff_exists.mp hps
          simp only [processNode, countSelNode, hraw]
          simp only [reduceCtorEq, if_false, if_true, reduceIte]
          cases htr : (trimCanvas env st.heap (Sum.inr raw)).2 with
          | none =>
            simp [htr, List.range'_one]
          | some t =>
            cases henc : env.encodeOk with
            | false => simp [htr, henc, List.range'_one]
            | true => simp [htr, henc, List.range'_one]

/-- List part of the progress bookkeeping. -/
theorem processLevel_events (env : Env) (layerMap : Nat → Option RawLayer)
    (style : NamingStyle) (pfx : Bool) :
    ∀ (list : List PsdLayer) (curPath pfxPath : String) (st : OrchSt),
    wfLayers list = true → payloadsOk layerMap list = true →
    (processLevel env layerMap style pfx list curPath pfxPath st).events =
      st.events ++ List.range' (st.processedCount + 1) (countSelected list) ∧
    (processLevel env layerMap style pfx list curPath pfxPath st).processedCount =
      st.processedCount + countSelected list
  | [], curPath, pfxPath, st => by
    intro _ _
    simp [processLevel, countSelected]
  | l :: rest, curPath, pfxPath, st => by
    intro hwf hpay
    have hwfn : wfNode l = true := by
      simp only [wfLayers, Bool.and_eq_true] at hwf
      exact hwf.1
    have hwfr : wfLayers rest = true := by
      simp only [wfLayers, Bool.and_eq_true] at hwf
      exact hwf.2
    have hpn : payloadNode layerMap l = true := by
      simp only [payloadsOk, Bool.and_eq_true] at hpay
      exact hpay.1
    have hpr : payloadsOk layerMap rest = true := by
      simp only [payloadsOk, Bool.and_eq_true] at hpay
      exact hpay.2
    have hnode := processNode_events env layerMap style pfx l curPath pfxPath st hwfn hpn
    have hrest := processLevel_events env layerMap style pfx rest curPath pfxPath
      (processNode env layerMap style pfx l curPath pfxPath st) hwfr hpr
    simp only [processLevel, countSelected]
    constructor
    · rw [hrest.1, hnode.1, hnode.2, List.append_assoc]
      congr 1
      have : st.processedCount + countSelNode l + 1 =
          st.processedCount + 1 + countSelNode l := by omega
      rw [this]
      exact range1_append (st.processedCount + 1) (countSelNode l) (countSelected rest)
    · rw [hrest.2, hnode.2]
      omega

end

/-- C2: over any well-formed tree whose selected leaves (N of them, N at
least 1) all have raw pixel payloads, one export run publishes exactly the
`processedCount` sequence 1, 2, ..., N — strictly increasing by 1 and
reaching N exactly once — and only then requests archive finalization. -/
theorem c2_progress_monotone (env : Env) (layerMap : Nat → Option RawLayer)
    (style : NamingStyle) (pfx : Bool) (layers : List PsdLayer) (h : Heap)
    (hwf : wfLayers layers = true) (hpay : payloadsOk layerMap layers = true)
    (hN : 1 ≤ countSelected layers) :
    (exportAssets env layerMap style pfx layers h).st.events =
      List.range' 1 (countSelected layers) ∧
    (exportAssets env layerMap style pfx layers h).finalized = true := by
  have hne : layers.isEmpty = false := by
    cases layers with
    | nil => simp [countSelected] at hN
    | cons a l => rfl
  have hplv := processLevel_events env layerMap style pfx layers "" "" (initSt h) hwf hpay
  unfold exportAssets
  rw [hne]
  simp only [Bool.false_eq_true, if_false]
  rw [if_neg (by omega)]
  refine ⟨?_, rfl⟩
  dsimp only
  rw [hplv.1]
  simp [initSt]

/-- C9 (amended): for every nonempty tree with no selected leaf layer,
`exportAssets` returns the "nothing selected" outcome and the archive sink
is never invoked: no file, no folder, no finalization. -/
theorem c9_zero_selection_amended (env : Env) (layerMap : Nat → Option RawLayer)
    (style : NamingStyle) (pfx : Bool) (layers : List PsdLayer) (h : Heap)
    (hne : layers ≠ []) (hzero : countSelected layers = 0) :
    (exportAssets env layerMap style pfx layers h).outcome = ExportOutcome.nothingSelected ∧
    (exportAssets env layerMap style pfx layers h).st.files = [] ∧
    (exportAssets env layerMap style pfx layers h).st.folders = [] ∧
    (exportAssets env layerMap style pfx layers h).finalized = false := by
  have hempty : layers.isEmpty = false := by
    cases layers with
    | nil => exact absurd rfl hne
    | cons a l => rfl
  unfold exportAssets
  rw [hempty]
  simp only [Bool.false_eq_true, if_false]
  rw [if_pos hzero]
  exact ⟨rfl, rfl, rfl, rfl⟩

/-- C9 counterexample: the empty layer tree has no selected leaf, yet
`exportAssets` takes the silent `layers.length === 0` early return — no
"nothing selected" message is produced. -/
theorem c9_zero_selection_counterexample :
    countSelected ([] : List PsdLayer) = 0 ∧
    (exportAssets envOk layerMapC1 NamingStyle.original false [] emptyHeap).outcome =
      ExportOutcome.noLayers ∧
    ExportOutcome.noLayers ≠ ExportOutcome.nothingSelected := by
  decide

/-- C1 (code evaluation at the failing input): on the tree
`Root{ GroupA{ leaf1(selected), leaf2(unselected) }, leaf3(selected) }`
with naming style original and the folder-structure toggle off, the
`App.tsx` walk creates the `GroupA/` folder but adds both files at the
archive root — `leaf1.png` and `leaf3.png`, not `GroupA/leaf1.png` —
because `processLevel` calls `zip.file(...)` on the root archive instead
of `currentZip.file(...)`. -/
theorem c1_export_flat_files_eval :
    (exportAssets envOk layerMapC1 NamingStyle.original false treeC1 emptyHeap).st.files =
      ["leaf1.png", "leaf3.png"] ∧
    (exportAssets envOk layerMapC1 NamingStyle.original false treeC1 emptyHeap).st.folders =
      ["GroupA/"] := by
  decide

/-- C4 counterexample: the claim that the trim scan ceiling is strictly
larger than the materializer ceiling is false — it is not the case that
`PIXEL_LIMIT < TRIM_LIMIT`. -/
theorem c4_trim_ceiling_counterexample : ¬(PIXEL_LIMIT < TRIM_LIMIT) := by
  decide

/-- C4 (amended): the trim engine's scan-bypass ceiling (16,000,000) is a
second, smaller ceiling — strictly smaller than the materializer's
allocation ceiling (48,000,000). -/
theorem c4_trim_ceiling_smaller : TRIM_LIMIT < PIXEL_LIMIT := by
  decide

/-- C3 counterexample: an oversized layer (7000 by 7000, above the
ceiling) that carries a precomputed canvas is returned as that canvas, not
null — the precomputed-canvas branch precedes the memory guard. -/
theorem c3_memory_guard_counterexample :
    oversizedPrecomputed.width * oversizedPrecomputed.height > PIXEL_LIMIT ∧
    (imageDataToCanvas envOk emptyHeap oversizedPrecomputed).2 = some 0 ∧
    (some 0 : Option Nat) ≠ none := by
  decide

/-- C8 counterexample: on a 3-by-3 surface whose only visible pixel is the
center (a proper sub-rectangle bounding box), with `getContext` on the
cropped canvas returning null, the copy step is skipped and `trimCanvas`
returns the blank 1-by-1 cropped canvas (reference 1, alpha 0 at its only
pixel), not the original untrimmed 3-by-3 surface (reference 0). -/
theorem c8_copy_failure_counterexample :
    (trimCanvas envCropCtxFail (oneSurfHeap dotSurf3) (Sum.inl 0)).2 = some ⟨1, 1, 1⟩ ∧
    (trimCanvas envCropCtxFail (oneSurfHeap dotSurf3) (Sum.inl 0)).2 ≠
      some ⟨0, dotSurf3.width, dotSurf3.height⟩ ∧
    (((trimCanvas envCropCtxFail (oneSurfHeap dotSurf3) (Sum.inl 0)).1).surf 1).data
      ((0 * 1 + 0) * 4 + 3) = 0 ∧
    alphaAt dotSurf3 1 1 = 255 := by
  decide

/-- C2 witness: the concrete two-leaf tree satisfies the hypotheses, and
the export run publishes exactly [1, 2] before finalizing. -/
theorem c2_progress_monotone_witness :
    wfLayers treeC1 = true ∧ payloadsOk layerMapC1 treeC1 = true ∧
    1 ≤ countSelected treeC1 ∧
    ((exportAssets envOk layerMapC1 NamingStyle.original false treeC1 emptyHeap).st.events =
      List.range' 1 (countSelected treeC1) ∧
     (exportAssets envOk layerMapC1 NamingStyle.original false treeC1 emptyHeap).finalized =
      true) :=
  ⟨by decide, by decide, by decide,
    c2_progress_monotone envOk layerMapC1 NamingStyle.original false treeC1 emptyHeap
      (by decide) (by decide) (by decide)⟩

/-- C3 witness: the oversized layer without a precomputed canvas is
rejected with a null result and an untouched heap. -/
theorem c3_memory_guard_witness :
    oversizedLayer.canvas = none ∧
    oversizedLayer.width * oversizedLayer.height > PIXEL_LIMIT ∧
    imageDataToCanvas envOk emptyHeap oversizedLayer = (emptyHeap, none) :=
  ⟨rfl, by decide,
    c3_memory_guard_amended envOk emptyHeap oversizedLayer rfl (by decide)⟩

/-- C5 witness: the 6-by-8 surface whose visible content is exactly the
rectangle (2,3)..(5,7) trims to a 4-by-5 result whose pixel (0,0) is the
input's pixel (2,3). -/
theorem c5_trim_rect_witness :
    5 < ((oneSurfHeap rectSurfSmall).surf 0).width ∧
    7 < ((oneSurfHeap rectSurfSmall).surf 0).height ∧
    ((oneSurfHeap rectSurfSmall).surf 0).width *
      ((oneSurfHeap rectSurfSmall).surf 0).height ≤ TRIM_LIMIT ∧
    (∀ x, x < ((oneSurfHeap rectSurfSmall).surf 0).width →
      ∀ y, y < ((oneSurfHeap rectSurfSmall).surf 0).height →
      (0 < alphaAt ((oneSurfHeap rectSurfSmall).surf 0) x y ↔
        (2 ≤ x ∧ x ≤ 5 ∧ 3 ≤ y ∧ y ≤ 7))) ∧
    ((trimCanvas envOk (oneSurfHeap rectSurfSmall) (Sum.inl 0)).2 =
      some ⟨(oneSurfHeap rectSurfSmall).next, 4, 5⟩ ∧
     ∀ ch, ch < 4 →
      (((trimCanvas envOk (oneSurfHeap rectSurfSmall) (Sum.inl 0)).1).surf
        (oneSurfHeap rectSurfSmall).next).data ch =
      ((oneSurfHeap rectSurfSmall).surf 0).data
        ((3 * ((oneSurfHeap rectSurfSmall).surf 0).width + 2) * 4 + ch)) :=
  ⟨by decide, by decide, by decide, by decide,
    c5_trim_rect_amended envOk (oneSurfHeap rectSurfSmall) 0
      (by decide) (by decide) (by decide) (by decide) rfl rfl rfl⟩

/-- C6 witness: a fully opaque 2-by-2 surface (bounding box equal to the
full extent) is returned unchanged by trim. -/
theorem c6_trim_idempotent_witness :
    envOk.srcCtxOk = true ∧
    (∃ y, y < ((oneSurfHeap (opaqueSurf 2 2)).surf 0).height ∧
      0 < alphaAt ((oneSurfHeap (opaqueSurf 2 2)).surf 0) 0 y) ∧
    trimCanvas envOk (oneSurfHeap (opaqueSurf 2 2)) (Sum.inl 0) =
      (oneSurfHeap (opaqueSurf 2 2),
        some ⟨0, ((oneSurfHeap (opaqueSurf 2 2)).surf 0).width,
          ((oneSurfHeap (opaqueSurf 2 2)).surf 0).height⟩) :=
  ⟨rfl, ⟨0, by decide⟩,
    c6_trim_idempotent envOk (oneSurfHeap (opaqueSurf 2 2)) 0 rfl
      ⟨0, by decide⟩ ⟨0, by decide⟩ ⟨0, by decide⟩ ⟨0, by decide⟩⟩

/-- C7 witness: a fully transparent 2-by-2 surface yields a null trim
result. -/
theorem c7_all_transparent_null_witness :
    0 < ((oneSurfHeap (clearSurf 2 2)).surf 0).width ∧
    0 < ((oneSurfHeap (clearSurf 2 2)).surf 0).height ∧
    ((oneSurfHeap (clearSurf 2 2)).surf 0).width *
      ((oneSurfHeap (clearSurf 2 2)).surf 0).height ≤ TRIM_LIMIT ∧
    (∀ x, x < ((oneSurfHeap (clearSurf 2 2)).surf 0).width →
      ∀ y, y < ((oneSurfHeap (clearSurf 2 2)).surf 0).height →
      alphaAt ((oneSurfHeap (clearSurf 2 2)).surf 0) x y = 0) ∧
    (trimCanvas envOk (oneSurfHeap (clearSurf 2 2)) (Sum.inl 0)).2 = none :=
  ⟨by decide, by decide, by decide, by decide,
    c7_all_transparent_null envOk (oneSurfHeap (clearSurf 2 2)) 0
      (by decide) (by decide) (by decide) (by decide)⟩

/-- C8 witness: on the 3-by-3 center-dot surface with a throwing
`drawImage`, the catch returns the original canvas (reference 0) at its
full 3-by-3 dimensions. -/
theorem c8_copy_throw_returns_original_witness :
    envDrawFail.drawOk = false ∧ envDrawFail.croppedCtxOk = true ∧
    (scan ((oneSurfHeap dotSurf3).surf 0).data ((oneSurfHeap dotSurf3).surf 0).width
      ((oneSurfHeap dotSurf3).surf 0).height).hasAlpha = true ∧
    (trimCanvas envDrawFail (oneSurfHeap dotSurf3) (Sum.inl 0)).2 =
      some ⟨0, ((oneSurfHeap dotSurf3).surf 0).width,
        ((oneSurfHeap dotSurf3).surf 0).height⟩ :=
  ⟨rfl, rfl, by decide,
    c8_copy_throw_returns_original envDrawFail (oneSurfHeap dotSurf3) 0
      (by decide) (by decide) rfl (by decide) (by decide) rfl rfl⟩

/-- C9 witness: a nonempty one-leaf unselected tree gets the "nothing
selected" outcome with no archive-sink call. -/
theorem c9_zero_selection_witness :
    treeUnselected ≠ [] ∧ countSelected treeUnselected = 0 ∧
    ((exportAssets envOk layerMapC1 NamingStyle.original false treeUnselected
        emptyHeap).outcome = ExportOutcome.nothingSelected ∧
     (exportAssets envOk layerMapC1 NamingStyle.original false treeUnselected
        emptyHeap).st.files = [] ∧
     (exportAssets envOk layerMapC1 NamingStyle.original false treeUnselected
        emptyHeap).st.folders = [] ∧
     (exportAssets envOk layerMapC1 NamingStyle.original false treeUnselected
        emptyHeap).finalized = false) :=
  ⟨by simp [treeUnselected], by decide,
    c9_zero_selection_amended envOk layerMapC1 NamingStyle.original false treeUnselected
      emptyHeap (by simp [treeUnselected]) (by decide)⟩

/-- C10 witness: trimming the allocated 3-by-3 center-dot canvas leaves
the surface stored at its reference unchanged. -/
theorem c10_trim_preserves_input_witness :
    0 < (oneSurfHeap dotSurf3).next ∧
    ((trimCanvas envOk (oneSurfHeap dotSurf3) (Sum.inl 0)).1).surf 0 =
      (oneSurfHeap dotSurf3).surf 0 :=
  ⟨by decide, c10_trim_preserves_input envOk (oneSurfHeap dotSurf3) 0 (by decide)⟩
